import Mathlib

/-!
Verification of the transfer-job planning and execution engine of
`cubi-tk sodar ingest-fastq` and `cubi-tk sodar pull-raw-data`
(files `cubi_tk/sodar/ingest_fastq.py` and `cubi_tk/sodar/pull_raw_data.py`),
as a shallow embedding in Lean 4.

Machine integers are modelled as `Nat` with explicit `% 2 ^ 64` where the code
uses a C `unsigned long long` counter.  Fallible code returns `Except`.
The filesystem is modelled as a finite association list from path to size.
-/



namespace CubiTk

/-! ## Data model: TransferJob

`TransferJob` (from `itransfer_common`, used by `ingest_fastq.py`) is an
immutable record of one file move: source path, destination path, byte size.
-/

structure TransferJob where
  path_src : String
  path_dest : String
  bytes : Nat
deriving DecidableEq, Repr

/-- Python's `<` on strings: lexicographic comparison of the code-point
sequences. -/
def strLtb : List Char → List Char → Bool
  | [], [] => false
  | [], _ :: _ => true
  | _ :: _, [] => false
  | c :: cs, d :: ds => if c = d then strLtb cs ds else decide (c < d)

/-- Python's `<=` on strings. -/
def strLeb (a b : List Char) : Bool :=
  strLtb a b || decide (a = b)

/-- Modelled from the spec: the total order on `TransferJob` used by
`sorted(transfer_jobs)`; the class itself lives in `itransfer_common`, which is
not part of the sources at hand.  Per spec §3 the order is lexicographic on
`(source_path, dest_path)`, with Python's code-point comparison on strings. -/
def TransferJob.leb (a b : TransferJob) : Bool :=
  if a.path_src = b.path_src then strLeb a.path_dest.data b.path_dest.data
  else strLtb a.path_src.data b.path_src.data

def TransferJob.le (a b : TransferJob) : Prop :=
  TransferJob.leb a b = true

instance : DecidableRel TransferJob.le := by
  intro a b
  unfold TransferJob.le
  infer_instance

/-! ## Filesystem model

A filesystem is a finite map from (string) path to file size in bytes; a path
is a regular file iff it is present.  `os.path.realpath` is modelled as the
identity (the model contains no symbolic links). -/

abbrev FileSys := List (String × Nat)

/-- `os.path.getsize` (`none` models the `OSError` of a missing file). -/
def FileSys.size? (fs : FileSys) (p : String) : Option Nat :=
  fs.lookup p

/-- `os.path.isfile` / `os.path.exists` for the model. -/
def FileSys.isFile (fs : FileSys) (p : String) : Bool :=
  (fs.size? p).isSome

/-! ## The default source regex

`DEFAULT_SRC_REGEX` from `ingest_fastq.py`:

    (.*/)?(?P<sample>.+?)(?:_(?P<lane>L[0-9]+?))?(?:_(?P<mate>R[0-9]+?))?
    (?:_(?P<batch>[0-9]+?))?\.f(?:ast)?q\.gz

applied with `re.match` (anchored at the start of the path, not at the end).
The matcher below is a direct transliteration using Python's backtracking
priority: choice points earlier in the pattern dominate; a greedy group tries
the longest alternative first; a lazy quantifier tries the shortest first; an
optional group tries the present alternative first; `.` matches anything
except a newline. -/

structure SrcMatch where
  sample : String
  lane : Option String
  mate : Option String
  batch : Option String
deriving DecidableEq, Repr

/-- `m.groupdict(default="")`: every named group, absent optional groups
mapped to the empty string. -/
def SrcMatch.groupdict (m : SrcMatch) : List (String × String) :=
  [("sample", m.sample), ("lane", m.lane.getD ""), ("mate", m.mate.getD ""),
   ("batch", m.batch.getD "")]

/-- `leadsWith pat cs`: `cs` begins with `pat`. -/
def leadsWith : List Char → List Char → Bool
  | [], _ => true
  | _ :: _, [] => false
  | a :: as, b :: bs => a = b && leadsWith as bs

/-- All splits `(take k, drop k)` of a list for `k = 1, 2, …, length`,
shortest `take` first (the order a lazy quantifier explores). -/
def splits1 (cs : List Char) : List (List Char × List Char) :=
  (List.range cs.length).map fun k => (cs.take (k + 1), cs.drop (k + 1))

/-- Candidates for `(.*/)?` (greedy, optional): remainders after stripping a
newline-free prefix that ends in `/`, longest prefix first, then the
group-absent alternative. -/
def dirCands (cs : List Char) : List (List Char) :=
  ((List.range cs.length).reverse.filterMap fun i =>
    if cs.getD i ' ' = '/' ∧ (cs.take (i + 1)).all (fun c => c ≠ '\n') then
      some (cs.drop (i + 1))
    else none) ++ [cs]

/-- Candidates for `(?:_(?P<lane>L[0-9]+?))?`: group value and remainder,
present alternative first, fewest digits first, then absent. -/
def laneCands (cs : List Char) : List (Option (List Char) × List Char) :=
  (match cs with
   | '_' :: 'L' :: rest =>
     (splits1 rest).filterMap fun pr =>
       if pr.1.all Char.isDigit then some (some ('L' :: pr.1), pr.2) else none
   | _ => []) ++ [(none, cs)]

/-- Candidates for `(?:_(?P<mate>R[0-9]+?))?`. -/
def mateCands (cs : List Char) : List (Option (List Char) × List Char) :=
  (match cs with
   | '_' :: 'R' :: rest =>
     (splits1 rest).filterMap fun pr =>
       if pr.1.all Char.isDigit then some (some ('R' :: pr.1), pr.2) else none
   | _ => []) ++ [(none, cs)]

/-- Candidates for `(?:_(?P<batch>[0-9]+?))?`. -/
def batchCands (cs : List Char) : List (Option (List Char) × List Char) :=
  (match cs with
   | '_' :: rest =>
     (splits1 rest).filterMap fun pr =>
       if pr.1.all Char.isDigit then some (some pr.1, pr.2) else none
   | _ => []) ++ [(none, cs)]

/-- `\.f(?:ast)?q\.gz` at the current position (no end anchor: anything may
follow). -/
def fastqSuffixOk (cs : List Char) : Bool :=
  leadsWith ".fastq.gz".toList cs || leadsWith ".fq.gz".toList cs

/-- Match the part of the default regex after the optional directory prefix:
lazy `(?P<sample>.+?)`, then the three optional groups, then the suffix. -/
def matchTail (cs : List Char) : Option SrcMatch :=
  (splits1 cs).findSome? fun sp =>
    if sp.1.all (fun c => c ≠ '\n') then
      laneCands sp.2 |>.findSome? fun lc =>
        mateCands lc.2 |>.findSome? fun mc =>
          batchCands mc.2 |>.findSome? fun bc =>
            if fastqSuffixOk bc.2 then
              some ⟨⟨sp.1⟩, lc.1.map (⟨·⟩), mc.1.map (⟨·⟩), bc.1.map (⟨·⟩)⟩
            else none
    else none

/-- `re.match(DEFAULT_SRC_REGEX, path)`. -/
def defaultSrcRegexMatch (s : String) : Option SrcMatch :=
  (dirCands s.toList).findSome? matchTail

/-! ## Destination templates

`str.format` on the `--remote-dir-pattern` template with keyword arguments,
and the field scan `re.findall(r"(?<={).+?(?=})", pattern)` used by
`SodarIngestFastq.__init__` to compute `dest_pattern_fields`. -/

inductive FmtError where
  /-- `KeyError`: a `{name}` placeholder with no matching keyword argument
  (the spec's `TemplateFieldError`). -/
  | missingField (name : String)
  /-- any other failure of `str.format` (unbalanced braces, empty field). -/
  | malformed
deriving DecidableEq, Repr

/-- Keyword-argument lookup (first entry with the given key). -/
def lookupStr : List (String × String) → String → Option String
  | [], _ => none
  | kv :: rest, k => if kv.1 = k then some kv.2 else lookupStr rest k

/-- `str.format` restricted to simple `{name}` placeholders: scan the
template; outside a field (second argument `none`) a `{` opens a field and a
bare `}` is an error; inside a field (second argument `some acc`, `acc` the
reversed name so far) a `}` closes the field and substitutes the keyword
argument, a missing keyword being a `KeyError`. -/
def formatAux : List Char → Option (List Char) → List (String × String) →
    Except FmtError (List Char)
  | [], none, _ => .ok []
  | [], some _, _ => .error .malformed
  | c :: rest, none, kvs =>
    if c = '{' then formatAux rest (some []) kvs
    else if c = '}' then .error .malformed
    else (formatAux rest none kvs).map (c :: ·)
  | c :: rest, some acc, kvs =>
    if c = '}' then
      if acc = [] then .error .malformed
      else
        match lookupStr kvs ⟨acc.reverse⟩ with
        | some v => (formatAux rest none kvs).map (fun t => v.toList ++ t)
        | none => .error (.missingField ⟨acc.reverse⟩)
    else if c = '{' then .error .malformed
    else formatAux rest (some (c :: acc)) kvs

/-- `template.format(**kvs)`. -/
def formatStr (tpl : String) (kvs : List (String × String)) :
    Except FmtError String :=
  (formatAux tpl.toList none kvs).map (⟨·⟩)

/-- The lazy `.+?` of `re.findall(r"(?<={).+?(?=})", ...)`: from the current
position, the shortest nonempty newline-free run of characters followed by a
`}`; returns the run and the remainder starting at that `}`. -/
def grabField : List Char → Option (List Char × List Char)
  | [] => none
  | c :: rest =>
    if c = '\n' then none
    else if rest.head? = some '}' then some ([c], rest)
    else (grabField rest).map fun pr => (c :: pr.1, pr.2)

/-- `re.findall(r"(?<={).+?(?=})", pattern)`: scan left to right; a match can
start at a position whose preceding character (`prev`) is `{`; after a match,
scanning resumes at the match end (the lookahead consumes nothing).  The
`fuel` argument only forces structural recursion; every call supplies at
least the length of the scanned list. -/
def findFieldsAux : Nat → Option Char → List Char → List String
  | 0, _, _ => []
  | _ + 1, _, [] => []
  | fuel + 1, prev, c :: rest =>
    if prev = some '{' then
      match grabField (c :: rest) with
      | some pr => (⟨pr.1⟩ : String) :: findFieldsAux fuel pr.1.getLast? pr.2
      | none => findFieldsAux fuel (some c) rest
    else findFieldsAux fuel (some c) rest

/-- `set(re.findall(r"(?<={).+?(?=})", pattern))` as an ordered list (only
membership is ever used). -/
def destPatternFields (pat : String) : List String :=
  findFieldsAux pat.toList.length none pat.toList

/-! ## String and path helpers (kernel-reducible replacements for
`str.startswith`, `str.endswith`, `str.lower`, `x in s`). -/

/-- `s.startswith(pre)`. -/
def strStarts (s pre : String) : Bool :=
  leadsWith pre.toList s.toList

/-- `s.endswith(suf)`. -/
def strEnds (s suf : String) : Bool :=
  leadsWith suf.toList.reverse s.toList.reverse

/-- `s.lower()` (ASCII; the inputs the gates compare are ASCII). -/
def strLower (s : String) : String :=
  ⟨s.toList.map Char.toLower⟩

/-- `needle in hay` (Python substring test). -/
def strContains (hay needle : String) : Bool :=
  hay.toList.tails.any (leadsWith needle.toList)

/-- `Path(p).name` for a path that does not end with `/`: the part after the
last `/`. -/
def pathName (p : String) : String :=
  ⟨(p.toList.reverse.takeWhile (· ≠ '/')).reverse⟩

/-- `str(Path(a) / b)` for the path shapes the planner builds (`b` relative,
`a` without redundant slashes). -/
def pathJoin (a b : String) : String :=
  if strStarts b "/" then b
  else if a = "" ∨ a = "." then b
  else if strEnds a "/" then a ++ b
  else a ++ "/" ++ b

/-! ## The job planner (`SodarIngestFastq.build_jobs`) -/

inductive PlanError where
  /-- `MissingFileException`. -/
  | missingFile (p : String)
  /-- `KeyError` from `str.format` on the destination pattern
  (the spec's `TemplateFieldError`). -/
  | templateField (name : String)
  /-- any other `str.format` failure. -/
  | malformedTemplate
deriving DecidableEq, Repr

/-- The arguments of `SodarIngestFastq` that `build_jobs` consults.
`src_match` is `re.match(self.args.src_regex, ·)` returning
`m.groupdict(default="")`; for the default regex it is
`fun p => (defaultSrcRegexMatch p).map SrcMatch.groupdict`.
`fix_md5_files` is the class attribute (`True` for `SodarIngestFastq`). -/
structure PlanArgs where
  src_match : String → Option (List (String × String))
  fix_md5_files : Bool
  remote_dir_pattern : String
  irods_dest : String
  remote_dir_date : String
  add_suffix : String

/-- The body of the `for path in iglob(...)` loop of `build_jobs`
(`ingest_fastq.py` lines 161–203) for one enumerated path: the jobs it
appends, or the exception it raises.  `real_path = os.path.realpath(path)`
coincides with `path` in the symlink-free model.  The `.format` keyword
arguments are `filename`, `date` and `match_wildcards` — the groupdict
restricted to `dest_pattern_fields`. -/
def planFile (fs : FileSys) (args : PlanArgs) (path : String) :
    Except PlanError (List TransferJob) :=
  if ¬ fs.isFile path then .ok []
  else if strEnds path ".md5" then .ok []
  else if ¬ fs.isFile path then .error (.missingFile path)
  else if ¬ fs.isFile (path ++ ".md5") ∧ ¬ args.fix_md5_files then
    .error (.missingFile (path ++ ".md5"))
  else
    match args.src_match path with
    | none => .ok []
    | some groups =>
      match formatStr args.remote_dir_pattern
        (("filename", pathName path ++ args.add_suffix) ::
          ("date", args.remote_dir_date) ::
          groups.filter fun kv =>
            decide (kv.1 ∈ destPatternFields args.remote_dir_pattern)) with
      | .error (.missingField n) => .error (.templateField n)
      | .error .malformed => .error .malformedTemplate
      | .ok rel =>
        .ok (["", ".md5"].map fun ext =>
          { path_src := path ++ ext
            path_dest := pathJoin args.irods_dest rel ++ ext
            bytes := (fs.size? (path ++ ext)).getD 0 })

/-- The accumulation of `transfer_jobs` over the enumerated paths: process
each path in enumeration order — the first exception aborts planning, the
jobs appended so far being discarded — and concatenate the appended jobs. -/
def planJobs (fs : FileSys) (args : PlanArgs) : List String →
    Except PlanError (List TransferJob)
  | [] => .ok []
  | p :: ps => do
    let l ← planFile fs args p
    let rest ← planJobs fs args ps
    pure (l ++ rest)

/-- `SodarIngestFastq.build_jobs` over the enumerated file paths of the
(already resolved local) source folders: the accumulated jobs, sorted —
`return tuple(sorted(transfer_jobs))`. -/
def build_jobs (fs : FileSys) (args : PlanArgs) (paths : List String) :
    Except PlanError (List TransferJob) :=
  (planJobs fs args paths).map (List.insertionSort TransferJob.le)

/-- The `PlanArgs` of an `ingest-fastq` run with default regex and pattern. -/
@[reducible]
def defaultArgs (irods_dest date suffix : String) : PlanArgs where
  src_match := fun p => (defaultSrcRegexMatch p).map SrcMatch.groupdict
  fix_md5_files := true
  remote_dir_pattern := "{sample}/{date}/{filename}"
  irods_dest := irods_dest
  remote_dir_date := date
  add_suffix := suffix

/-! ## The parallel transfer engine (`SodarIngestFastq.execute`, lines
233–243, and the worker `download_folder`, lines 249–262)

A worker (`irsync_transfer`, structurally identical to `download_folder` in
the sources: run the external `irsync` via `check_output`; on
`SubprocessError` log the error and re-raise; on success add `job.bytes` to
the shared counter under its lock) is modelled by an outcome oracle
`ok : TransferJob → Bool` (`true` = the external call exits 0). -/

/-- Sequential path (`num_parallel_transfers == 0`): the workers run in a
plain `for` loop, so the first re-raised exception propagates out of
`execute` and the remaining jobs are not started.  Returns the jobs whose
external call was started and whether an exception propagated. -/
def runSequential (ok : TransferJob → Bool) :
    List TransferJob → List TransferJob × Bool
  | [] => ([], false)
  | j :: js =>
    if ok j then
      let r := runSequential ok js
      (j :: r.1, r.2)
    else ([j], true)

/-- Parallel path (`num_parallel_transfers > 0`): every job is submitted with
`pool.apply_async(irsync_transfer, ...)` and the returned `AsyncResult`
objects are discarded, so an exception raised inside a worker is stored in
its `AsyncResult` and never re-raised in the calling thread; `pool.close()`
cancels no queued task and `pool.join()` waits for all of them.  Hence every
job's external call is started and no exception propagates out of
`execute`, whatever the outcomes. -/
def runParallel (_ok : TransferJob → Bool) (jobs : List TransferJob) :
    List TransferJob × Bool :=
  (jobs, false)

/-- The dispatch on `num_parallel_transfers` in `execute`. -/
def executeTransfers (numParallel : Nat) (ok : TransferJob → Bool)
    (jobs : List TransferJob) : List TransferJob × Bool :=
  if numParallel = 0 then runSequential ok jobs else runParallel ok jobs

/-! ## The shared byte counter

`counter = Value(c_ulonglong, 0)`; each successful worker performs
`with counter.get_lock(): counter.value += job.bytes` — a read-modify-write
made atomic by the lock, on a 64-bit unsigned cell. -/

/-- One locked increment of the shared counter. -/
def counterStep (c b : Nat) : Nat :=
  (c + b) % 2 ^ 64

/-- The successive counter values over one invocation, given the byte sizes
of the jobs in completion order (an arbitrary interleaving of worker
completions; the lock serializes the increments). -/
def counterTrace (c : Nat) : List Nat → List Nat
  | [] => []
  | b :: bs => counterStep c b :: counterTrace (counterStep c b) bs

/-! ## Confirmation gates -/

/-- The two `ingest-fastq` gates (`download_webdav` line 123 and `execute`
line 224): `self.args.yes or input("Is this OK? [yN] ").lower().startswith("y")`. -/
def ingestGateProceeds (auto_yes : Bool) (resp : String) : Bool :=
  auto_yes || strStarts (strLower resp) "y"

/-- `SodarIngestFastq.execute` after planning (lines 221–246): the final gate
and the transfer dispatch.  Returns the exit status (`some 1` is the
user-cancellation `return 1`; `none` the final `return None`) and the jobs
whose external call was started. -/
def ingestExecute (auto_yes : Bool) (resp : String) (numParallel : Nat)
    (ok : TransferJob → Bool) (jobs : List TransferJob) :
    Option Nat × List TransferJob :=
  if ¬ ingestGateProceeds auto_yes resp then (some 1, [])
  else (none, (executeTransfers numParallel ok jobs).1)

/-- The interactive loop of `PullRawDataCommand.execute` (lines 186–191):
lines are read until one, lower-cased, starts with `"y"` or `"n"`; the
answer is then `answer_str == "y"` (exact equality with the lower-cased
line).  `none`: the input list was exhausted with the loop still running. -/
def pullGateAnswer : List String → Option Bool
  | [] => none
  | s :: rest =>
    if strStarts (strLower s) "y" || strStarts (strLower s) "n" then
      some (strLower s = "y")
    else pullGateAnswer rest

/-- Lines 184–191: with `--yes`, `answer = True` without prompting. -/
def pullAnswer (yes : Bool) (inputs : List String) : Option Bool :=
  if yes then some true else pullGateAnswer inputs

/-! ## `pull-raw-data` command building and execution -/

/-- One irsync command of `PullRawDataCommand.execute` (lines 171–177);
`threads = none` models a falsy `config.irsync_threads`. -/
def pullCommand (irodsPath outDir : String) (threads : Option String)
    (kv : String × String) : List String :=
  ["irsync", "-r"] ++
    (match threads with | some t => ["-N", t] | none => []) ++
    ["i:" ++ irodsPath ++ "/" ++ kv.1, outDir ++ "/" ++ kv.2]

/-- The command-building loop (lines 167–177): a library whose name contains
`"12_3456"` is skipped by the `continue`; every other entry of
`library_to_folder` yields one irsync command. -/
def buildPullCommands (irodsPath outDir : String) (threads : Option String)
    (libToFolder : List (String × String)) : List (List String) :=
  (libToFolder.filter fun kv => ¬ strContains kv.1 "12_3456").map
    (pullCommand irodsPath outDir threads)

/-- The `for cmd in commands` loop (lines 195–204): `check_call` each command
in order; on `SubprocessError` log and `return 1`, skipping the rest.
Returns the exit status and the commands whose external call was started. -/
def pullRunCommands (ok : List String → Bool) :
    List (List String) → Nat × List (List String)
  | [] => (0, [])
  | c :: cs =>
    if ok c then
      let r := pullRunCommands ok cs
      (r.1, c :: r.2)
    else (1, [c])

/-- `PullRawDataCommand.execute` from the built command list on (lines
178–205): early `return 0` when no commands; the gate; a declining answer
runs nothing and returns 0; an affirmative answer runs the commands.
`none` models the never-terminating input loop. -/
def pullExecute (yes : Bool) (inputs : List String) (ok : List String → Bool)
    (commands : List (List String)) : Option (Nat × List (List String)) :=
  if commands.isEmpty then some (0, [])
  else
    match pullAnswer yes inputs with
    | none => none
    | some false => some (0, [])
    | some true => some (pullRunCommands ok commands)

/-! ## `pull-raw-data` library-to-folder mapping -/

/-- What `LibraryInfoCollector` gathers for one library: its name, its
`Folder name` and the `Batch` value of its source (a string from the ISA
sheet; `none` models a falsy value). -/
structure SampleRecord where
  library_name : String
  folder_name : String
  batch_no : Option String
deriving DecidableEq, Repr

/-- `int(s)` for a decimal digit string. -/
def parseNat (cs : List Char) : Nat :=
  cs.foldl (fun n c => 10 * n + (c.toNat - '0'.toNat)) 0

/-- The filter of the dict comprehension in `_get_library_to_folder` (lines
218–223): `sample["source"]["batch_no"] and int(batch_no) >= min_batch`;
`None` and the empty string are falsy. -/
def batchKeep (minBatch : Int) (b : Option String) : Bool :=
  match b with
  | none => false
  | some s => decide (s ≠ "") && decide (minBatch ≤ (parseNat s.data : Int))

/-- The dict comprehension of `_get_library_to_folder` as an association
list (`library_name` keys; a Python dict keeps the last value per key — only
key membership is stated below). -/
def libraryToFolder (minBatch : Int) (samples : List SampleRecord) :
    List (String × String) :=
  samples.filterMap fun s =>
    if batchKeep minBatch s.batch_no then some (s.library_name, s.folder_name)
    else none

/-! ## WebDAV staging (`SodarIngestFastq.download_webdav`, lines 107–140) -/

/-- `download_webdav`: sources matching `davs://` become download jobs with
destination `args.tmp` (a directory `tmp_folder_N` is also created but never
referenced again); the other sources are collected in `folders`.  After the
gate (decline returns `[]`), the download jobs are executed and `folders` is
returned — without any of the staged temporary directories.  Result:
(folders handed to `build_jobs`, download jobs, whether downloads ran). -/
def downloadWebdav (tmp : String) (auto_yes : Bool) (resp : String)
    (sources : List String) : List String × List TransferJob × Bool :=
  let djobs := (sources.filter fun s => strStarts s "davs://").map
    fun s => TransferJob.mk ("i:" ++ s) tmp 1
  let folders := sources.filter fun s => ¬ strStarts s "davs://"
  if ¬ ingestGateProceeds auto_yes resp then ([], djobs, false)
  else (folders, djobs, true)

/-- The job list a successfully planned path contributes. -/
def planOk (fs : FileSys) (args : PlanArgs) (p : String) : List TransferJob :=
  ((planFile fs args p).toOption).getD []

/-! ## Well-formed destination templates

A template made of plain characters and simple `{name}` placeholders, the
shape `--remote-dir-pattern` values take.  `toksStr` renders the token list
back to the template text; the lemmas characterize `str.format` and the
`re.findall` field scan on such templates. -/

inductive TplTok where
  | lit (c : Char)
  | field (s : String)
deriving DecidableEq, Repr

/-- Well-formedness: literal characters are not braces; field names are
nonempty and contain no brace and no newline. -/
def tokWF : TplTok → Bool
  | .lit c => decide (c ≠ '{') && decide (c ≠ '}')
  | .field s => decide (s ≠ "") &&
      s.data.all fun c =>
        decide (c ≠ '{') && decide (c ≠ '}') && decide (c ≠ '\n')

def toksStr : List TplTok → List Char
  | [] => []
  | .lit c :: ts => c :: toksStr ts
  | .field s :: ts => '{' :: (s.data ++ '}' :: toksStr ts)

def fieldNames : List TplTok → List String
  | [] => []
  | .lit _ :: ts => fieldNames ts
  | .field s :: ts => s :: fieldNames ts

/-- The arguments of the C5 witness: default-regex groups, but a template
whose `{library}` placeholder no capture field supplies. -/
def c5Args : PlanArgs where
  src_match := fun _ =>
    some [("sample", "a"), ("lane", ""), ("mate", ""), ("batch", "")]
  fix_md5_files := true
  remote_dir_pattern := "{library}/{filename}"
  irods_dest := ""
  remote_dir_date := "2024-01-01"
  add_suffix := ""

/-! ## Theorems -/

theorem strLtb_irrefl (a : List Char) : strLtb a a = false := by
  induction a with
  | nil => rfl
  | cons c cs ih => simp [strLtb, ih]

theorem strLtb_trans {a b c : List Char} (h₁ : strLtb a b = true)
    (h₂ : strLtb b c = true) : strLtb a c = true := by
  induction a generalizing b c with
  | nil =>
    cases b with
    | nil => simp [strLtb] at h₁
    | cons d ds =>
      cases c with
      | nil => simp [strLtb] at h₂
      | cons e es => rfl
  | cons x xs ih =>
    cases b with
    | nil => simp [strLtb] at h₁
    | cons d ds =>
      cases c with
      | nil => simp [strLtb] at h₂
      | cons e es =>
        rw [strLtb] at h₁ h₂ ⊢
        by_cases hxd : x = d
        · subst hxd
          rw [if_pos rfl] at h₁
          by_cases hde : x = e
          · subst hde
            rw [if_pos rfl] at h₂ ⊢
            exact ih h₁ h₂
          · rw [if_neg hde] at h₂ ⊢
            exact h₂
        · rw [if_neg hxd] at h₁
          by_cases hde : d = e
          · subst hde
            rw [if_neg hxd]
            exact h₁
          · rw [if_neg hde] at h₂
            have hlt : x < e := lt_trans (of_decide_eq_true h₁) (of_decide_eq_true h₂)
            rw [if_neg (ne_of_lt hlt)]
            exact decide_eq_true hlt

theorem strLtb_trichot (a b : List Char) :
    strLtb a b = true ∨ a = b ∨ strLtb b a = true := by
  induction a generalizing b with
  | nil =>
    cases b with
    | nil => exact Or.inr (Or.inl rfl)
    | cons d ds => exact Or.inl rfl
  | cons x xs ih =>
    cases b with
    | nil => exact Or.inr (Or.inr rfl)
    | cons d ds =>
      by_cases hxd : x = d
      · subst hxd
        rcases ih ds with h | h | h
        · exact Or.inl (by rw [strLtb, if_pos rfl]; exact h)
        · exact Or.inr (Or.inl (by rw [h]))
        · exact Or.inr (Or.inr (by rw [strLtb, if_pos rfl]; exact h))
      · rcases lt_or_gt_of_ne hxd with h | h
        · exact Or.inl (by rw [strLtb, if_neg hxd]; exact decide_eq_true h)
        · refine Or.inr (Or.inr ?_)
          rw [strLtb, if_neg (Ne.symm hxd)]
          exact decide_eq_true h

theorem strLtb_asymm {a b : List Char} (h : strLtb a b = true) :
    strLtb b a = false := by
  by_contra hc
  have hba : strLtb b a = true := by
    cases hb : strLtb b a
    · exact absurd hb hc
    · rfl
  have : strLtb a a = true := strLtb_trans h hba
  rw [strLtb_irrefl] at this
  exact Bool.false_ne_true this

theorem string_data_inj {a b : String} (h : a.data = b.data) : a = b := by
  cases a
  cases b
  exact congrArg String.mk h

instance : IsTotal TransferJob TransferJob.le := by
  constructor
  intro a b
  unfold TransferJob.le TransferJob.leb
  by_cases hsrc : a.path_src = b.path_src
  · rcases strLtb_trichot a.path_dest.data b.path_dest.data with h | h | h
    · exact Or.inl (by simp [hsrc, strLeb, h])
    · exact Or.inl (by simp [hsrc, strLeb, h])
    · exact Or.inr (by simp [hsrc.symm, strLeb, h])
  · rcases strLtb_trichot a.path_src.data b.path_src.data with h | h | h
    · exact Or.inl (by simp [hsrc, h])
    · exact absurd (string_data_inj h) hsrc
    · exact Or.inr (by simp [Ne.symm hsrc, h])

theorem strLeb_trans {a b c : List Char} (h₁ : strLeb a b = true)
    (h₂ : strLeb b c = true) : strLeb a c = true := by
  rcases Bool.or_eq_true_iff.1 h₁ with h₁ | h₁ <;>
    rcases Bool.or_eq_true_iff.1 h₂ with h₂ | h₂
  · exact Bool.or_eq_true_iff.2 (Or.inl (strLtb_trans h₁ h₂))
  · rw [of_decide_eq_true h₂] at h₁
    exact Bool.or_eq_true_iff.2 (Or.inl h₁)
  · rw [of_decide_eq_true h₁]
    exact Bool.or_eq_true_iff.2 (Or.inl h₂)
  · rw [of_decide_eq_true h₁, of_decide_eq_true h₂]
    simp [strLeb]

theorem strLeb_antisymm {a b : List Char} (h₁ : strLeb a b = true)
    (h₂ : strLeb b a = true) : a = b := by
  rcases Bool.or_eq_true_iff.1 h₁ with h₁ | h₁
  · rcases Bool.or_eq_true_iff.1 h₂ with h₂ | h₂
    · rw [strLtb_asymm h₁] at h₂
      exact absurd h₂ Bool.false_ne_true
    · exact (of_decide_eq_true h₂).symm
  · exact of_decide_eq_true h₁

instance : IsTrans TransferJob TransferJob.le := by
  constructor
  intro a b c hab hbc
  unfold TransferJob.le TransferJob.leb at hab hbc ⊢
  by_cases hab₁ : a.path_src = b.path_src <;>
    by_cases hbc₁ : b.path_src = c.path_src
  · rw [if_pos hab₁] at hab
    rw [if_pos hbc₁] at hbc
    rw [if_pos (hab₁.trans hbc₁)]
    exact strLeb_trans hab hbc
  · rw [if_pos hab₁] at hab
    rw [if_neg hbc₁] at hbc
    rw [if_neg (hab₁ ▸ hbc₁), hab₁]
    exact hbc
  · rw [if_neg hab₁] at hab
    rw [if_pos hbc₁] at hbc
    rw [if_neg (hbc₁ ▸ hab₁), ← hbc₁]
    exact hab
  · rw [if_neg hab₁] at hab
    rw [if_neg hbc₁] at hbc
    have hac : strLtb a.path_src.data c.path_src.data = true :=
      strLtb_trans hab hbc
    have hne : a.path_src ≠ c.path_src := by
      intro he
      rw [he, strLtb_irrefl] at hac
      exact Bool.false_ne_true hac
    rw [if_neg hne]
    exact hac

theorem grabField_length {cs : List Char} {pr : List Char × List Char}
    (h : grabField cs = some pr) : pr.2.length < cs.length := by
  induction cs generalizing pr with
  | nil => simp [grabField] at h
  | cons c rest ih =>
    rw [grabField] at h
    split at h
    · exact absurd h (by simp)
    · split at h
      · cases h
        simp
      · rcases Option.map_eq_some'.1 h with ⟨pr', hpr', he⟩
        have hlen : pr'.2.length < rest.length := ih hpr'
        rw [← he]
        exact Nat.lt_succ_of_lt hlen

/-! ## Claims -/

/-- **C1** — the claim says a failed external transfer call for one job is
fatal to the whole invocation for every pool size, including the default
parallel path with 8 workers.  The code violates this in the parallel path:
the `AsyncResult` of `pool.apply_async` is discarded, so the worker's
re-raised exception never leaves the pool and the remaining queued jobs all
run; with jobs `[a, b]` and the external call failing on `a`, pool size 8
starts `b` anyway and `execute` finishes normally, whereas pool size 0
matches the claim (aborts after `a`, exception propagated). -/
theorem C1_parallel_failure_not_fatal :
    executeTransfers 8 (fun j => decide (j.path_src ≠ "a.fastq.gz"))
        [⟨"a.fastq.gz", "d/a.fastq.gz", 1⟩, ⟨"b.fastq.gz", "d/b.fastq.gz", 2⟩] =
      ([⟨"a.fastq.gz", "d/a.fastq.gz", 1⟩, ⟨"b.fastq.gz", "d/b.fastq.gz", 2⟩], false) ∧
    executeTransfers 0 (fun j => decide (j.path_src ≠ "a.fastq.gz"))
        [⟨"a.fastq.gz", "d/a.fastq.gz", 1⟩, ⟨"b.fastq.gz", "d/b.fastq.gz", 2⟩] =
      ([⟨"a.fastq.gz", "d/a.fastq.gz", 1⟩], true) :=
  ⟨rfl, rfl⟩

/-- **C8** — the claim says the staged local download folders replace the
remote `davs://` source in the subsequent enumeration, so its files appear in
the planned job set.  The code violates this: `download_webdav` returns only
the non-`davs://` sources (the created `tmp_folder_N` directories and the
`args.tmp` download destination are never added), so nothing downloaded from
a remote source is ever enumerated by `build_jobs`.  First conjunct: for any
inputs the folder list handed to planning is the non-remote sources (or `[]`
after a declined gate); second conjunct: the concrete failing input. -/
theorem C8_staging_never_feeds_planning :
    (∀ tmp auto_yes resp sources,
      (downloadWebdav tmp auto_yes resp sources).1 =
        sources.filter (fun s => ¬ strStarts s "davs://") ∨
      (downloadWebdav tmp auto_yes resp sources).1 = []) ∧
    downloadWebdav "temp/" true "" ["davs://example.org/run1", "local_data"] =
      (["local_data"], [⟨"i:davs://example.org/run1", "temp/", 1⟩], true) := by
  constructor
  · intro tmp auto_yes resp sources
    unfold downloadWebdav
    split
    · exact Or.inr rfl
    · exact Or.inl rfl
  · rfl

/-- **C10** — in `pull-raw-data`, every library whose name contains
`"12_3456"` is silently skipped when building the irsync commands: removing
such an entry from the (already batch-filtered) library-to-folder mapping
leaves the command list unchanged, and no error or warning is produced (the
builder is total). -/
theorem C10_skip_12_3456 (irodsPath outDir : String) (threads : Option String)
    (pre post : List (String × String)) (k v : String)
    (h : strContains k "12_3456" = true) :
    buildPullCommands irodsPath outDir threads (pre ++ (k, v) :: post) =
      buildPullCommands irodsPath outDir threads (pre ++ post) := by
  unfold buildPullCommands
  rw [List.filter_append, List.filter_append, List.filter_cons]
  simp [h]

/-- Witness for C10 at a concrete mapping. -/
theorem C10_skip_12_3456_witness :
    strContains "A-12_3456-B" "12_3456" = true ∧
    buildPullCommands "ip" "out" none [("libA", "fA"), ("A-12_3456-B", "fB")] =
      buildPullCommands "ip" "out" none [("libA", "fA")] := by
  refine ⟨by rfl, ?_⟩
  have h := C10_skip_12_3456 "ip" "out" none [("libA", "fA")] [] "A-12_3456-B" "fB"
    (by rfl)
  simpa using h

/-- **C7** — the library-to-folder mapping built from the remote samplesheet
has an entry for a library iff some collected sample carries that library
name together with a present (non-falsy) batch value that is at least
`min_batch`; absent or sub-threshold batches are excluded. -/
theorem C7_min_batch_filter (minBatch : Int) (samples : List SampleRecord)
    (lib : String) :
    (∃ folder, (lib, folder) ∈ libraryToFolder minBatch samples) ↔
    (∃ s ∈ samples, s.library_name = lib ∧ ∃ bs, s.batch_no = some bs ∧
      bs ≠ "" ∧ minBatch ≤ (parseNat bs.data : Int)) := by
  unfold libraryToFolder
  constructor
  · rintro ⟨folder, hmem⟩
    rcases List.mem_filterMap.1 hmem with ⟨s, hs, hf⟩
    split at hf
    · rename_i hk
      injection hf with hf
      have hlib : s.library_name = lib := (Prod.mk.injEq _ _ _ _ ▸ hf).1
      refine ⟨s, hs, hlib, ?_⟩
      unfold batchKeep at hk
      cases hb : s.batch_no with
      | none => rw [hb] at hk; exact absurd hk (by simp)
      | some bs =>
        rw [hb] at hk
        rcases Bool.and_eq_true_iff.1 hk with ⟨h1, h2⟩
        exact ⟨bs, rfl, of_decide_eq_true h1, of_decide_eq_true h2⟩
    · exact absurd hf (by simp)
  · rintro ⟨s, hs, hname, bs, hb, hne, hge⟩
    refine ⟨s.folder_name, List.mem_filterMap.2 ⟨s, hs, ?_⟩⟩
    have hk : batchKeep minBatch s.batch_no = true := by
      unfold batchKeep
      rw [hb]
      exact Bool.and_eq_true_iff.2 ⟨decide_eq_true hne, decide_eq_true hge⟩
    rw [if_pos hk, hname]

/-- Witness for C7: with `min_batch = 2`, batch "3" is kept, batch "1" and
an absent batch are dropped. -/
theorem C7_min_batch_filter_witness :
    (∃ folder, ("lib1", folder) ∈ libraryToFolder 2
      [⟨"lib1", "f1", some "3"⟩, ⟨"lib2", "f2", some "1"⟩,
       ⟨"lib3", "f3", none⟩]) ∧
    ¬ (∃ folder, ("lib2", folder) ∈ libraryToFolder 2
      [⟨"lib1", "f1", some "3"⟩, ⟨"lib2", "f2", some "1"⟩,
       ⟨"lib3", "f3", none⟩]) := by
  constructor
  · exact (C7_min_batch_filter 2 _ "lib1").mpr
      ⟨⟨"lib1", "f1", some "3"⟩, by simp, rfl, "3", rfl, by decide, by decide⟩
  · intro h
    rcases (C7_min_batch_filter 2 _ "lib2").mp h with
      ⟨s, hs, hname, bs, hb, hne, hge⟩
    simp only [List.mem_cons, List.not_mem_nil, or_false] at hs
    rcases hs with hs | hs | hs
    · rw [hs] at hname
      simp at hname
    · rw [hs] at hb
      have hbs : "1" = bs := by simpa using hb
      subst hbs
      exact absurd hge (by decide)
    · rw [hs] at hb
      simp at hb

/-- The counter never wraps within one invocation when the total byte count
fits in the 64-bit cell: the trace starting at `c` stays within bounds. -/
theorem counterTrace_chain (c : Nat) (bs : List Nat)
    (h : c + bs.sum < 2 ^ 64) :
    List.Chain (· ≤ ·) c (counterTrace c bs) := by
  induction bs generalizing c with
  | nil => exact List.Chain.nil
  | cons b bs ih =>
    rw [List.sum_cons] at h
    have hcb : c + b < 2 ^ 64 := by omega
    have hstep : counterStep c b = c + b := Nat.mod_eq_of_lt hcb
    rw [counterTrace, hstep]
    exact List.Chain.cons (Nat.le_add_right c b) (ih (c + b) (by omega))

theorem counterTrace_getLastD (c : Nat) (bs : List Nat)
    (h : c + bs.sum < 2 ^ 64) :
    (counterTrace c bs).getLastD c = c + bs.sum := by
  induction bs generalizing c with
  | nil => simp [counterTrace]
  | cons b bs ih =>
    rw [List.sum_cons] at h
    have hcb : c + b < 2 ^ 64 := by omega
    have hstep : counterStep c b = c + b := Nat.mod_eq_of_lt hcb
    rw [counterTrace, List.getLastD_cons, hstep, ih (c + b) (by omega),
      List.sum_cons]
    omega

/-- **C9** — for a job set executed with pool size `K ∈ {0, 1, 8}` in which
every external call succeeds, every job's call is started and nothing is
raised; and for *any* completion order of the workers (the lock around
`counter.value += job.bytes` makes each increment atomic, so an interleaving
is a permutation of the byte sizes), the shared 64-bit counter is
monotonically non-decreasing throughout and ends at the sum of all jobs'
byte sizes (which is assumed to fit the `c_ulonglong` cell). -/
theorem C9_counter_correct (K : Nat) (ok : TransferJob → Bool)
    (jobs : List TransferJob) (order : List Nat)
    (hK : K = 0 ∨ K = 1 ∨ K = 8)
    (hperm : order.Perm (jobs.map TransferJob.bytes))
    (hbound : (jobs.map TransferJob.bytes).sum < 2 ^ 64)
    (hok : ∀ j ∈ jobs, ok j = true) :
    executeTransfers K ok jobs = (jobs, false) ∧
    List.Chain (· ≤ ·) 0 (counterTrace 0 order) ∧
    (counterTrace 0 order).getLastD 0 = (jobs.map TransferJob.bytes).sum := by
  have hsum : order.sum = (jobs.map TransferJob.bytes).sum := hperm.sum_eq
  refine ⟨?_, ?_, ?_⟩
  · unfold executeTransfers
    rcases hK with h | h | h
    · rw [h, if_pos rfl]
      clear hperm hbound hsum h
      induction jobs with
      | nil => rfl
      | cons j js ih =>
        rw [runSequential, if_pos (hok j (List.mem_cons_self j js))]
        rw [ih (fun q hq => hok q (List.mem_cons_of_mem j hq))]
    · rw [h]
      rfl
    · rw [h]
      rfl
  · exact counterTrace_chain 0 order (by omega)
  · rw [counterTrace_getLastD 0 order (by omega)]
    omega

/-- Witness for C9: two jobs of 3 and 5 bytes, pool size 8, completion order
reversed; the counter trace is `[5, 8]`. -/
theorem C9_counter_correct_witness :
    executeTransfers 8 (fun _ => true) [⟨"a", "x", 3⟩, ⟨"b", "y", 5⟩] =
      ([⟨"a", "x", 3⟩, ⟨"b", "y", 5⟩], false) ∧
    List.Chain (· ≤ ·) 0 (counterTrace 0 [5, 3]) ∧
    (counterTrace 0 [5, 3]).getLastD 0 = 8 := by
  have h := C9_counter_correct 8 (fun _ => true) [⟨"a", "x", 3⟩, ⟨"b", "y", 5⟩]
    [5, 3] (Or.inr (Or.inr rfl)) (by decide) (by decide) (fun j _ => rfl)
  simpa using h

/-- **C6** counterexample: the claim says every gate proceeds exactly when
the response, case-insensitively, starts with `"y"`, and that this holds for
the pull-raw-data gate too.  At the pull-raw-data gate the response `"yes"`
starts with `"y"`, yet the answer is negative (`answer = (answer_str == "y")`
is an exact comparison) and zero external calls are performed — with exit
status 0, not a distinguished cancellation status. -/
theorem C6_counterexample_yes_rejected :
    strStarts (strLower "yes") "y" = true ∧
    pullGateAnswer ["yes"] = some false ∧
    pullExecute false ["yes"] (fun _ => true) [["irsync", "-r", "i:a", "b"]] =
      some (0, []) :=
  ⟨rfl, rfl, rfl⟩

/-- **C6** (amended): with `--yes` both commands proceed without consuming
input.  The ingest-fastq gates proceed exactly when the response,
case-insensitively, starts with `"y"`; otherwise the final ingest gate
returns the cancellation status 1 with zero transfer calls.  The
pull-raw-data gate re-prompts until a response starts, case-insensitively,
with `"y"` or `"n"`, proceeds exactly when the lower-cased response is the
single letter `"y"`, and on a declining answer performs zero external calls
and returns exit status 0. -/
theorem C6_confirmation_gates (resp : String) (numPar : Nat)
    (ok : TransferJob → Bool) (jobs : List TransferJob)
    (inputs : List String) (cok : List String → Bool)
    (commands : List (List String)) (l : String) (rest : List String) :
    (ingestExecute true resp numPar ok jobs =
      (none, (executeTransfers numPar ok jobs).1)) ∧
    (strStarts (strLower resp) "y" = true →
      ingestExecute false resp numPar ok jobs =
        (none, (executeTransfers numPar ok jobs).1)) ∧
    (strStarts (strLower resp) "y" = false →
      ingestExecute false resp numPar ok jobs = (some 1, [])) ∧
    (pullAnswer true inputs = some true) ∧
    ((strStarts (strLower l) "y" || strStarts (strLower l) "n") = true →
      pullGateAnswer (l :: rest) = some (decide (strLower l = "y"))) ∧
    ((strStarts (strLower l) "y" || strStarts (strLower l) "n") = false →
      pullGateAnswer (l :: rest) = pullGateAnswer rest) ∧
    (pullAnswer false inputs = some false →
      pullExecute false inputs cok commands = some (0, [])) := by
  refine ⟨rfl, ?_, ?_, rfl, ?_, ?_, ?_⟩
  · intro h
    simp [ingestExecute, ingestGateProceeds, h]
  · intro h
    simp [ingestExecute, ingestGateProceeds, h]
  · intro h
    simp only [pullGateAnswer, h, if_true]
  · intro h
    simp only [pullGateAnswer, h, Bool.false_eq_true, if_false]
  · intro h
    unfold pullExecute
    split
    · rfl
    · unfold pullAnswer at h ⊢
      rw [if_neg (by simp)] at h ⊢
      rw [h]

/-- Witness for the amended C6 at concrete gate inputs. -/
theorem C6_confirmation_gates_witness :
    ingestExecute false "NO" 8 (fun _ => true) [] = (some 1, []) ∧
    ingestExecute false "Yep" 8 (fun _ => true) [] = (none, []) ∧
    pullGateAnswer ["maybe", "N"] = some false ∧
    pullExecute false ["N"] (fun _ => true) [["irsync"]] = some (0, []) := by
  have h1 := C6_confirmation_gates "NO" 8 (fun _ => true) [] ["N"]
    (fun _ => true) [["irsync"]] "maybe" ["N"]
  have h2 := C6_confirmation_gates "Yep" 8 (fun _ => true) [] ["N"]
    (fun _ => true) [["irsync"]] "N" []
  refine ⟨h1.2.2.1 (by rfl), ?_, ?_, h1.2.2.2.2.2.2 (by rfl)⟩
  · exact (h2.2.1 (by rfl)).trans (by rfl)
  · have e1 := h1.2.2.2.2.2.1 (by rfl)
    have e2 := h2.2.2.2.2.1 (by rfl)
    rw [e1, e2]
    rfl

/-! ## Planner lemmas -/

/-- A path the active regex does not match is processed without error and
contributes no job (`ingest-fastq` has `fix_md5_files = True`). -/
theorem planFile_match_none {fs : FileSys} {args : PlanArgs} {p : String}
    (hfix : args.fix_md5_files = true) (hm : args.src_match p = none) :
    planFile fs args p = .ok [] := by
  unfold planFile
  rw [hm]
  split
  · rfl
  · split
    · rfl
    · split
      · rename_i h4
        rw [hfix] at h4
        simp at h4
      · rfl

/-- The success case of the per-path planning step: a matched, existing,
non-sidecar file whose destination template renders yields exactly the data
job and its `.md5` sidecar job, the sidecar's paths being the data paths
with `".md5"` appended and its size looked up independently. -/
theorem planFile_match_some {fs : FileSys} {args : PlanArgs} {p : String}
    {g : List (String × String)} {rel : String}
    (hfile : fs.isFile p = true) (hmd5 : strEnds p ".md5" = false)
    (hfix : args.fix_md5_files = true)
    (hm : args.src_match p = some g)
    (hfmt : formatStr args.remote_dir_pattern
      (("filename", pathName p ++ args.add_suffix) ::
        ("date", args.remote_dir_date) ::
        g.filter (fun kv =>
          decide (kv.1 ∈ destPatternFields args.remote_dir_pattern))) =
      .ok rel) :
    planFile fs args p = .ok
      [⟨p, pathJoin args.irods_dest rel, (fs.size? p).getD 0⟩,
       ⟨p ++ ".md5", pathJoin args.irods_dest rel ++ ".md5",
         (fs.size? (p ++ ".md5")).getD 0⟩] := by
  unfold planFile
  rw [if_neg (by simp [hfile]), if_neg (by simp [hmd5]),
    if_neg (by simp [hfile]), if_neg (by simp [hfix]), hm]
  simp only [hfmt]
  simp [String.append_empty]

theorem size_getD_zero_of_not_file {fs : FileSys} {p : String}
    (h : fs.isFile p = false) : (fs.size? p).getD 0 = 0 := by
  unfold FileSys.isFile at h
  cases hs : fs.size? p with
  | none => rfl
  | some n => rw [hs] at h; simp at h

/-- Every job appended for a path has its byte size looked up from its own
source path (`os.path.getsize(real_path + ext)`, `0` on `OSError`). -/
theorem planFile_mem_bytes {fs : FileSys} {args : PlanArgs} {p : String}
    {l : List TransferJob} {j : TransferJob}
    (h : planFile fs args p = .ok l) (hj : j ∈ l) :
    j.bytes = (fs.size? j.path_src).getD 0 := by
  unfold planFile at h
  split at h
  · cases h
    simp at hj
  · split at h
    · cases h
      simp at hj
    · split at h
      · cases h
      · split at h
        · cases h
          simp at hj
        · split at h
          · cases h
          · cases h
          · cases h
            rcases List.mem_map.1 hj with ⟨ext, hext, hjob⟩
            cases hjob
            rfl

/-- A path planned to the empty job list can be dropped from the
enumeration without changing the planning outcome. -/
theorem planJobs_skip {fs : FileSys} {args : PlanArgs} {p : String}
    {post : List String} (h : planFile fs args p = .ok []) :
    ∀ pre, planJobs fs args (pre ++ p :: post) = planJobs fs args (pre ++ post) := by
  intro pre
  induction pre with
  | nil =>
    simp only [List.nil_append, planJobs, h]
    cases hr : planJobs fs args post with
    | error e => rfl
    | ok r => rfl
  | cons q pre ih =>
    simp only [List.cons_append, planJobs, List.append_eq]
    cases hq : planFile fs args q with
    | error e => rfl
    | ok lq => rw [ih]

/-- A path whose planning raises propagates its exception out of `planJobs`
when the paths enumerated before it plan without error. -/
theorem planJobs_error {fs : FileSys} {args : PlanArgs} {p : String}
    {post : List String} {e : PlanError}
    (h : planFile fs args p = .error e) :
    ∀ pre, (∀ q ∈ pre, ∃ l, planFile fs args q = .ok l) →
    planJobs fs args (pre ++ p :: post) = .error e := by
  intro pre hall
  induction pre with
  | nil =>
    simp only [List.nil_append, planJobs, h]
    rfl
  | cons q pre ih =>
    rcases hall q (List.mem_cons_self q pre) with ⟨lq, hq⟩
    simp only [List.cons_append, planJobs, hq, List.append_eq]
    rw [ih (fun r hr => hall r (List.mem_cons_of_mem q hr))]
    rfl

theorem planOk_eq {fs : FileSys} {args : PlanArgs} {p : String}
    {l : List TransferJob} (h : planFile fs args p = .ok l) :
    planOk fs args p = l := by
  simp [planOk, h, Except.toOption]

/-- Success analysis of `planJobs`: every path planned without error, and the
accumulated list is the concatenation of the per-path job lists. -/
theorem planJobs_ok_elim {fs : FileSys} {args : PlanArgs} {paths : List String}
    {flat : List TransferJob} (h : planJobs fs args paths = .ok flat) :
    (∀ p ∈ paths, ∃ l, planFile fs args p = .ok l) ∧
    flat = (paths.map (planOk fs args)).flatten := by
  induction paths generalizing flat with
  | nil =>
    cases h
    exact ⟨by simp, rfl⟩
  | cons p ps ih =>
    rw [planJobs] at h
    cases hp : planFile fs args p with
    | error e => rw [hp] at h; cases h
    | ok l =>
      rw [hp] at h
      cases hr : planJobs fs args ps with
      | error e => rw [hr] at h; cases h
      | ok r =>
        rw [hr] at h
        cases h
        rcases ih hr with ⟨hall, hflat⟩
        constructor
        · intro q hq
          rcases List.mem_cons.1 hq with hq | hq
          · exact ⟨l, hq ▸ hp⟩
          · exact hall q hq
        · rw [List.map_cons, List.flatten_cons, planOk_eq hp, ← hflat]

/-- Converse: when every path plans without error, `planJobs` succeeds with
the concatenation. -/
theorem planJobs_ok_intro {fs : FileSys} {args : PlanArgs}
    {paths : List String}
    (h : ∀ p ∈ paths, ∃ l, planFile fs args p = .ok l) :
    planJobs fs args paths = .ok ((paths.map (planOk fs args)).flatten) := by
  induction paths with
  | nil => rfl
  | cons p ps ih =>
    rcases h p (List.mem_cons_self p ps) with ⟨l, hp⟩
    rw [planJobs, hp, ih (fun q hq => h q (List.mem_cons_of_mem p hq))]
    rw [List.map_cons, List.flatten_cons, planOk_eq hp]
    rfl

theorem flatten_perm_of_perm {α : Type} {l₁ l₂ : List (List α)}
    (h : l₁.Perm l₂) : l₁.flatten.Perm l₂.flatten := by
  induction h with
  | nil => exact List.Perm.refl _
  | cons x _ ih => simpa using ih.append_left x
  | swap x y l =>
    simp only [List.flatten_cons]
    rw [← List.append_assoc, ← List.append_assoc]
    exact (List.perm_append_comm).append_right _
  | trans _ _ ih₁ ih₂ => exact ih₁.trans ih₂

/-- Mutual `TransferJob.le` forces equal source and destination paths. -/
theorem le_antisymm_paths {a b : TransferJob} (hab : a.le b) (hba : b.le a) :
    a.path_src = b.path_src ∧ a.path_dest = b.path_dest := by
  unfold TransferJob.le TransferJob.leb at hab hba
  by_cases hsrc : a.path_src = b.path_src
  · rw [if_pos hsrc] at hab
    rw [if_pos hsrc.symm] at hba
    exact ⟨hsrc, string_data_inj (strLeb_antisymm hab hba)⟩
  · rw [if_neg hsrc] at hab
    rw [if_neg (Ne.symm hsrc)] at hba
    rw [strLtb_asymm hab] at hba
    exact absurd hba Bool.false_ne_true

/-- `List.eq_of_perm_of_sorted` with antisymmetry required only on the
members of the list. -/
theorem sorted_perm_eq : ∀ {l₁ l₂ : List TransferJob},
    (∀ a ∈ l₁, ∀ b ∈ l₁, a.le b → b.le a → a = b) →
    l₁.Perm l₂ → l₁.Sorted TransferJob.le → l₂.Sorted TransferJob.le →
    l₁ = l₂
  | [], l₂, _, hp, _, _ => hp.nil_eq
  | a :: t₁, l₂, anti, hp, hs₁, hs₂ => by
    have ha₂ : a ∈ l₂ := hp.mem_iff.1 (List.mem_cons_self a t₁)
    cases l₂ with
    | nil => simp at ha₂
    | cons b t₂ =>
      have hb₁ : b ∈ a :: t₁ := hp.mem_iff.2 (List.mem_cons_self b t₂)
      have hab : a = b := by
        rcases List.mem_cons.1 hb₁ with h | h
        · exact h.symm
        · rcases List.mem_cons.1 ha₂ with h2 | h2
          · exact h2
          · have h3 : a.le b := List.rel_of_sorted_cons hs₁ b h
            have h4 : b.le a := List.rel_of_sorted_cons hs₂ a h2
            exact anti a (List.mem_cons_self a t₁) b hb₁ h3 h4
      subst hab
      have hp' : t₁.Perm t₂ := hp.cons_inv
      have anti' : ∀ x ∈ t₁, ∀ y ∈ t₁, x.le y → y.le x → x = y := by
        intro x hx y hy
        exact anti x (List.mem_cons_of_mem a hx) y (List.mem_cons_of_mem a hy)
      rw [sorted_perm_eq anti' hp' hs₁.of_cons hs₂.of_cons]

/-- **C4** — planning is deterministic: the planner is a pure function of
the directory tree and parameters (two calls on the same inputs give the
same list by reflexivity), its output is sorted by the `TransferJob` total
order, and it does not even depend on the enumeration order of the directory
walk: a permuted enumeration yields the identical sorted job list. -/
theorem C4_planning_deterministic (fs : FileSys) (args : PlanArgs)
    (paths₁ paths₂ : List String) (jobs : List TransferJob)
    (hperm : paths₁.Perm paths₂)
    (h₁ : build_jobs fs args paths₁ = .ok jobs) :
    jobs.Sorted TransferJob.le ∧ build_jobs fs args paths₂ = .ok jobs := by
  unfold build_jobs at h₁
  cases hp₁ : planJobs fs args paths₁ with
  | error e => rw [hp₁] at h₁; cases h₁
  | ok flat₁ =>
    rw [hp₁] at h₁
    cases h₁
    rcases planJobs_ok_elim hp₁ with ⟨hall₁, hflat₁⟩
    have hall₂ : ∀ p ∈ paths₂, ∃ l, planFile fs args p = .ok l := by
      intro p hpmem
      exact hall₁ p (hperm.mem_iff.2 hpmem)
    have hp₂ := planJobs_ok_intro hall₂
    have hfperm : flat₁.Perm ((paths₂.map (planOk fs args)).flatten) := by
      rw [hflat₁]
      exact flatten_perm_of_perm (hperm.map _)
    have hbytes : ∀ j ∈ flat₁, j.bytes = (fs.size? j.path_src).getD 0 := by
      intro j hj
      rw [hflat₁] at hj
      rcases List.mem_flatten.1 hj with ⟨l, hl, hjl⟩
      rcases List.mem_map.1 hl with ⟨p, hpmem, hpl⟩
      rcases hall₁ p hpmem with ⟨l', hp'⟩
      rw [← hpl, planOk_eq hp'] at hjl
      exact planFile_mem_bytes hp' hjl
    have anti : ∀ a ∈ List.insertionSort TransferJob.le flat₁,
        ∀ b ∈ List.insertionSort TransferJob.le flat₁,
        a.le b → b.le a → a = b := by
      intro a ha b hb hab hba
      rcases le_antisymm_paths hab hba with ⟨hsrc, hdest⟩
      have ba : a.bytes = b.bytes := by
        rw [hbytes a ((List.mem_insertionSort _).1 ha),
          hbytes b ((List.mem_insertionSort _).1 hb), hsrc]
      cases a
      cases b
      simp_all
    refine ⟨List.sorted_insertionSort _ _, ?_⟩
    unfold build_jobs
    rw [hp₂]
    simp only [Except.map]
    have heq : List.insertionSort TransferJob.le
        ((paths₂.map (planOk fs args)).flatten) =
        List.insertionSort TransferJob.le flat₁ := by
      refine (sorted_perm_eq ?_ ?_ ?_ ?_).symm
      · exact anti
      · exact (List.perm_insertionSort _ _).trans
          (hfperm.trans (List.perm_insertionSort _ _).symm)
      · exact List.sorted_insertionSort _ _
      · exact List.sorted_insertionSort _ _
    rw [heq]

/-- Witness for C4: the scenario tree enumerated in the two possible orders
produces the same sorted job list. -/
theorem C4_planning_deterministic_witness :
    build_jobs
        [("src/sampleA_L001_R1.fastq.gz", 10),
         ("src/sampleA_L001_R1.fastq.gz.md5", 5)]
        (defaultArgs "" "2024-01-01" "")
        ["src/sampleA_L001_R1.fastq.gz.md5", "src/sampleA_L001_R1.fastq.gz"] =
      .ok
        [⟨"src/sampleA_L001_R1.fastq.gz",
          "sampleA/2024-01-01/sampleA_L001_R1.fastq.gz", 10⟩,
         ⟨"src/sampleA_L001_R1.fastq.gz.md5",
          "sampleA/2024-01-01/sampleA_L001_R1.fastq.gz.md5", 5⟩] ∧
    List.Sorted TransferJob.le
      [⟨"src/sampleA_L001_R1.fastq.gz",
        "sampleA/2024-01-01/sampleA_L001_R1.fastq.gz", 10⟩,
       ⟨"src/sampleA_L001_R1.fastq.gz.md5",
        "sampleA/2024-01-01/sampleA_L001_R1.fastq.gz.md5", 5⟩] := by
  have h := C4_planning_deterministic
    [("src/sampleA_L001_R1.fastq.gz", 10),
     ("src/sampleA_L001_R1.fastq.gz.md5", 5)]
    (defaultArgs "" "2024-01-01" "")
    ["src/sampleA_L001_R1.fastq.gz", "src/sampleA_L001_R1.fastq.gz.md5"]
    ["src/sampleA_L001_R1.fastq.gz.md5", "src/sampleA_L001_R1.fastq.gz"]
    [⟨"src/sampleA_L001_R1.fastq.gz",
      "sampleA/2024-01-01/sampleA_L001_R1.fastq.gz", 10⟩,
     ⟨"src/sampleA_L001_R1.fastq.gz.md5",
      "sampleA/2024-01-01/sampleA_L001_R1.fastq.gz.md5", 5⟩]
    (List.Perm.swap "src/sampleA_L001_R1.fastq.gz.md5"
      "src/sampleA_L001_R1.fastq.gz" [])
    (by rfl)
  exact ⟨h.2, h.1⟩

/-- **C2** — for every file that matches the source regex (and whose
destination template renders), planning appends exactly two transfer jobs:
the data file and its `.md5` sidecar, the sidecar's source and destination
paths being the data job's paths with `".md5"` appended and its byte size
looked up independently — `0` when the sidecar does not exist on disk.  In
the concrete scenario (folder with `sampleA_L001_R1.fastq.gz` of 10 bytes
and its 5-byte sidecar, default regex, template
`{sample}/{date}/{filename}`, date `2024-01-01`) the planned jobs are
`sampleA/2024-01-01/sampleA_L001_R1.fastq.gz` (10 bytes) and its `.md5`
(5 bytes), in this order. -/
theorem C2_two_jobs_per_match :
    (∀ (fs : FileSys) (args : PlanArgs) (p : String)
      (g : List (String × String)) (rel : String),
      fs.isFile p = true → strEnds p ".md5" = false →
      args.fix_md5_files = true → args.src_match p = some g →
      formatStr args.remote_dir_pattern
        (("filename", pathName p ++ args.add_suffix) ::
          ("date", args.remote_dir_date) ::
          g.filter (fun kv =>
            decide (kv.1 ∈ destPatternFields args.remote_dir_pattern))) =
        .ok rel →
      planFile fs args p = .ok
        [⟨p, pathJoin args.irods_dest rel, (fs.size? p).getD 0⟩,
         ⟨p ++ ".md5", pathJoin args.irods_dest rel ++ ".md5",
           (fs.size? (p ++ ".md5")).getD 0⟩] ∧
      (fs.isFile (p ++ ".md5") = false →
        (fs.size? (p ++ ".md5")).getD 0 = 0)) ∧
    build_jobs
      [("src/sampleA_L001_R1.fastq.gz", 10),
       ("src/sampleA_L001_R1.fastq.gz.md5", 5)]
      (defaultArgs "" "2024-01-01" "")
      ["src/sampleA_L001_R1.fastq.gz", "src/sampleA_L001_R1.fastq.gz.md5"] =
    .ok
      [⟨"src/sampleA_L001_R1.fastq.gz",
        "sampleA/2024-01-01/sampleA_L001_R1.fastq.gz", 10⟩,
       ⟨"src/sampleA_L001_R1.fastq.gz.md5",
        "sampleA/2024-01-01/sampleA_L001_R1.fastq.gz.md5", 5⟩] := by
  constructor
  · intro fs args p g rel h1 h2 h3 h4 h5
    exact ⟨planFile_match_some h1 h2 h3 h4 h5,
      fun hnf => size_getD_zero_of_not_file hnf⟩
  · rfl

/-- Witness for C2's universal part: the scenario file with the sidecar
absent from disk — the sidecar job is planned with byte size 0. -/
theorem C2_two_jobs_per_match_witness :
    planFile [("src/sampleA_L001_R1.fastq.gz", 10)]
      (defaultArgs "" "2024-01-01" "") "src/sampleA_L001_R1.fastq.gz" =
    .ok
      [⟨"src/sampleA_L001_R1.fastq.gz",
        "sampleA/2024-01-01/sampleA_L001_R1.fastq.gz", 10⟩,
       ⟨"src/sampleA_L001_R1.fastq.gz.md5",
        "sampleA/2024-01-01/sampleA_L001_R1.fastq.gz.md5", 0⟩] := by
  have h := C2_two_jobs_per_match.1 [("src/sampleA_L001_R1.fastq.gz", 10)]
    (defaultArgs "" "2024-01-01" "") "src/sampleA_L001_R1.fastq.gz"
    [("sample", "sampleA"), ("lane", "L001"), ("mate", "R1"), ("batch", "")]
    "sampleA/2024-01-01/sampleA_L001_R1.fastq.gz"
    (by rfl) (by rfl) (by rfl) (by rfl) (by rfl)
  rw [h.1]
  rfl

/-- **C3** — a discovered regular file whose path does not match the active
source regex is silently excluded: planning over an enumeration containing
the non-matching path gives exactly the result of planning without it — no
job for it, no error, and the rest of the run unaffected
(`fix_md5_files = True` as in `ingest-fastq`). -/
theorem C3_nonmatching_excluded (fs : FileSys) (args : PlanArgs)
    (pre post : List String) (p : String)
    (hfix : args.fix_md5_files = true)
    (hfile : fs.isFile p = true)
    (hm : args.src_match p = none) :
    build_jobs fs args (pre ++ p :: post) = build_jobs fs args (pre ++ post) := by
  unfold build_jobs
  rw [planJobs_skip (planFile_match_none hfix hm) pre]

/-- Witness for C3: a `readme.txt` next to the scenario FASTQ file changes
nothing. -/
theorem C3_nonmatching_excluded_witness :
    build_jobs
      [("src/readme.txt", 7), ("src/sampleA_L001_R1.fastq.gz", 10),
       ("src/sampleA_L001_R1.fastq.gz.md5", 5)]
      (defaultArgs "" "2024-01-01" "")
      ["src/readme.txt", "src/sampleA_L001_R1.fastq.gz"] =
    build_jobs
      [("src/readme.txt", 7), ("src/sampleA_L001_R1.fastq.gz", 10),
       ("src/sampleA_L001_R1.fastq.gz.md5", 5)]
      (defaultArgs "" "2024-01-01" "")
      ["src/sampleA_L001_R1.fastq.gz"] := by
  have h := C3_nonmatching_excluded
    [("src/readme.txt", 7), ("src/sampleA_L001_R1.fastq.gz", 10),
     ("src/sampleA_L001_R1.fastq.gz.md5", 5)]
    (defaultArgs "" "2024-01-01" "") [] ["src/sampleA_L001_R1.fastq.gz"]
    "src/readme.txt" (by rfl) (by rfl) (by rfl)
  simpa using h

theorem string_mk_data (s : String) : (⟨s.data⟩ : String) = s := by
  cases s
  rfl

theorem lookupStr_eq_none_iff {l : List (String × String)} {k : String} :
    lookupStr l k = none ↔ k ∉ l.map Prod.fst := by
  induction l with
  | nil => simp [lookupStr]
  | cons kv rest ih =>
    rw [lookupStr]
    by_cases h : kv.1 = k
    · simp [h]
    · rw [if_neg h]
      simp only [List.map_cons, List.mem_cons]
      rw [ih]
      constructor
      · intro hk hc
        rcases hc with hc | hc
        · exact h hc.symm
        · exact hk hc
      · intro hk
        exact fun hc => hk (Or.inr hc)

theorem lookupStr_filter_mem {l : List (String × String)}
    {fields : List String} {k : String} (hk : k ∈ fields) :
    lookupStr (l.filter fun kv => decide (kv.1 ∈ fields)) k = lookupStr l k := by
  induction l with
  | nil => rfl
  | cons kv rest ih =>
    rw [List.filter_cons]
    by_cases hq : kv.1 ∈ fields
    · rw [if_pos (by simp [hq])]
      rw [lookupStr, lookupStr]
      by_cases he : kv.1 = k
      · rw [if_pos he, if_pos he]
      · rw [if_neg he, if_neg he, ih]
    · rw [if_neg (by simp [hq])]
      rw [ih, lookupStr]
      have he : kv.1 ≠ k := by
        intro he
        rw [he] at hq
        exact hq hk
      rw [if_neg he]

/-- `grabField` over a brace-free, newline-free nonempty run stops exactly at
the closing `}`. -/
theorem grabField_run {cs rest : List Char} (hne : cs ≠ [])
    (hchars : ∀ c ∈ cs, c ≠ '}' ∧ c ≠ '\n') :
    grabField (cs ++ '}' :: rest) = some (cs, '}' :: rest) := by
  induction cs with
  | nil => exact absurd rfl hne
  | cons c cs ih =>
    have hc := hchars c (List.mem_cons_self c cs)
    rw [List.cons_append, grabField, if_neg hc.2]
    cases cs with
    | nil => simp
    | cons d ds =>
      have hd := hchars d (by simp)
      rw [if_neg (by simp [hd.1])]
      rw [ih (by simp) (fun x hx => hchars x (List.mem_cons_of_mem c hx))]
      rfl

/-- `formatAux` inside a field accumulates the (reversed) brace-free name. -/
theorem formatAux_run {cs : List Char} {kvs : List (String × String)} :
    ∀ {acc rest : List Char}, (∀ c ∈ cs, c ≠ '{' ∧ c ≠ '}') →
    formatAux (cs ++ rest) (some acc) kvs =
      formatAux rest (some (cs.reverse ++ acc)) kvs := by
  induction cs with
  | nil => intro acc rest _; simp
  | cons c cs ih =>
    intro acc rest hchars
    have hc := hchars c (List.mem_cons_self c cs)
    rw [List.cons_append, formatAux, if_neg hc.2, if_neg hc.1]
    rw [ih (fun x hx => hchars x (List.mem_cons_of_mem c hx))]
    simp

theorem string_data_ne_nil {s : String} (h : s ≠ "") : s.data ≠ [] := by
  intro h0
  exact h ((string_mk_data s).symm.trans (by rw [h0]))

/-- `str.format` on a well-formed template either fails with the first
missing field name — a `KeyError` naming a template field absent from the
keyword arguments — or succeeds, exactly when every field name has a value.
-/
theorem formatAux_toks (ts : List TplTok) (kvs : List (String × String))
    (hwf : ∀ t ∈ ts, tokWF t = true) :
    (∃ n, formatAux (toksStr ts) none kvs = .error (.missingField n) ∧
      n ∈ fieldNames ts ∧ lookupStr kvs n = none) ∨
    ((∀ n ∈ fieldNames ts, (lookupStr kvs n).isSome) ∧
      ∃ out, formatAux (toksStr ts) none kvs = .ok out) := by
  induction ts with
  | nil =>
    right
    exact ⟨by simp [fieldNames], [], rfl⟩
  | cons t ts ih =>
    have hwft := hwf t (List.mem_cons_self t ts)
    have ihr := ih (fun x hx => hwf x (List.mem_cons_of_mem t hx))
    cases t with
    | lit c =>
      simp only [tokWF, Bool.and_eq_true, decide_eq_true_eq] at hwft
      have heq : formatAux (toksStr (.lit c :: ts)) none kvs =
          (formatAux (toksStr ts) none kvs).map (c :: ·) := by
        rw [toksStr, formatAux, if_neg hwft.1, if_neg hwft.2]
      rcases ihr with ⟨n, he, hn, hl⟩ | ⟨hall, out, ho⟩
      · left
        refine ⟨n, ?_, by simpa [fieldNames] using hn, hl⟩
        rw [heq, he]
        rfl
      · right
        refine ⟨by simpa [fieldNames] using hall, c :: out, ?_⟩
        rw [heq, ho]
        rfl
    | field sName =>
      simp only [tokWF, Bool.and_eq_true, decide_eq_true_eq,
        List.all_eq_true] at hwft
      obtain ⟨hne, hcs⟩ := hwft
      have hdata : sName.data ≠ [] := string_data_ne_nil hne
      have hrevne : sName.data.reverse ≠ [] := by simpa using hdata
      have heq : formatAux (toksStr (.field sName :: ts)) none kvs =
          (match lookupStr kvs ⟨sName.data.reverse.reverse⟩ with
           | some v => (formatAux (toksStr ts) none kvs).map
               (fun t => v.toList ++ t)
           | none => .error (.missingField ⟨sName.data.reverse.reverse⟩)) := by
        rw [toksStr, formatAux, if_pos rfl]
        rw [formatAux_run (fun c hc => (hcs c hc).1)]
        rw [List.append_nil]
        rw [formatAux, if_pos rfl, if_neg hrevne]
      rw [List.reverse_reverse, string_mk_data] at heq
      cases hl : lookupStr kvs sName with
      | none =>
        left
        refine ⟨sName, ?_, by simp [fieldNames], hl⟩
        rw [heq, hl]
      | some v =>
        rcases ihr with ⟨n, he, hn, hln⟩ | ⟨hall, out, ho⟩
        · left
          refine ⟨n, ?_, by simp [fieldNames, hn], hln⟩
          rw [heq, hl, he]
          rfl
        · right
          constructor
          · intro n hnmem
            rcases (by simpa [fieldNames] using hnmem :
                n = sName ∨ n ∈ fieldNames ts) with h | h
            · rw [h, hl]
              rfl
            · exact hall n h
          · refine ⟨v.toList ++ out, ?_⟩
            rw [heq, hl, ho]
            rfl

/-- The `re.findall(r"(?<={).+?(?=})", ...)` scan of a well-formed template
extracts exactly its field names (fuel at least the scanned length; the
scanner is not just past a `{`). -/
theorem findFieldsAux_toks : ∀ (ts : List TplTok),
    (∀ t ∈ ts, tokWF t = true) →
    ∀ fuel, (toksStr ts).length ≤ fuel → ∀ prev, prev ≠ some '{' →
    findFieldsAux fuel prev (toksStr ts) = fieldNames ts := by
  intro ts
  induction ts with
  | nil =>
    intro _ fuel _ prev _
    cases fuel with
    | zero => rfl
    | succ fuel => rfl
  | cons t ts ih =>
    intro hwf fuel hlen prev hprev
    have hwft := hwf t (List.mem_cons_self t ts)
    have ihr := ih (fun x hx => hwf x (List.mem_cons_of_mem t hx))
    cases t with
    | lit c =>
      simp only [tokWF, Bool.and_eq_true, decide_eq_true_eq] at hwft
      rw [toksStr] at hlen ⊢
      cases fuel with
      | zero => simp at hlen
      | succ fuel =>
        rw [findFieldsAux, if_neg hprev]
        show findFieldsAux fuel (some c) (toksStr ts) = fieldNames ts
        refine ihr fuel (by simpa using hlen) (some c) ?_
        simp [hwft.1]
    | field sName =>
      simp only [tokWF, Bool.and_eq_true, decide_eq_true_eq,
        List.all_eq_true] at hwft
      obtain ⟨hne, hcs⟩ := hwft
      have hdata : sName.data ≠ [] := string_data_ne_nil hne
      obtain ⟨c₀, cs₀, hsd⟩ : ∃ c₀ cs₀, sName.data = c₀ :: cs₀ := by
        cases hx : sName.data with
        | nil => exact absurd hx hdata
        | cons a b => exact ⟨a, b, rfl⟩
      rw [toksStr] at hlen ⊢
      rw [hsd] at hlen ⊢
      cases fuel with
      | zero => simp at hlen
      | succ fuel =>
        rw [findFieldsAux, if_neg hprev]
        cases fuel with
        | zero => simp at hlen
        | succ fuel =>
          rw [List.cons_append, findFieldsAux, if_pos rfl]
          have hgrab : grabField (c₀ :: (cs₀ ++ '}' :: toksStr ts)) =
              some (c₀ :: cs₀, '}' :: toksStr ts) := by
            rw [← List.cons_append]
            refine grabField_run (by simp) ?_
            intro x hx
            rw [← hsd] at hx
            exact ⟨(hcs x hx).1.2, (hcs x hx).2⟩
          rw [hgrab]
          have hname : (⟨c₀ :: cs₀⟩ : String) = sName := by
            rw [← hsd]
          have hlast : ∃ lc, (c₀ :: cs₀).getLast? = some lc ∧
              lc ∈ c₀ :: cs₀ := by
            refine ⟨(c₀ :: cs₀).getLast (by simp), List.getLast?_eq_getLast _ _, ?_⟩
            exact List.getLast_mem _
          obtain ⟨lc, hlc, hlcmem⟩ := hlast
          have hlcne : lc ≠ '{' := by
            rw [← hsd] at hlcmem
            exact (hcs lc hlcmem).1.1
          show (⟨c₀ :: cs₀⟩ : String) ::
              findFieldsAux fuel (c₀ :: cs₀).getLast? ('}' :: toksStr ts) =
            fieldNames (.field sName :: ts)
          rw [hname, hlc]
          cases fuel with
          | zero => simp at hlen
          | succ fuel =>
            rw [findFieldsAux, if_neg (by simp [hlcne])]
            rw [ihr fuel (by simp at hlen ⊢; omega) (some '}') (by simp)]
            rfl

/-- `planFile` on a matched, existing, non-sidecar file reduces to the
rendering step. -/
theorem planFile_reduce {fs : FileSys} {args : PlanArgs} {p : String}
    {g : List (String × String)}
    (hfile : fs.isFile p = true) (hmd5 : strEnds p ".md5" = false)
    (hfix : args.fix_md5_files = true) (hm : args.src_match p = some g) :
    planFile fs args p =
      (match formatStr args.remote_dir_pattern
        (("filename", pathName p ++ args.add_suffix) ::
          ("date", args.remote_dir_date) ::
          g.filter (fun kv =>
            decide (kv.1 ∈ destPatternFields args.remote_dir_pattern))) with
      | .error (.missingField n) => .error (.templateField n)
      | .error .malformed => .error .malformedTemplate
      | .ok rel =>
        .ok (["", ".md5"].map fun ext =>
          { path_src := p ++ ext
            path_dest := pathJoin args.irods_dest rel ++ ext
            bytes := (fs.size? (p ++ ext)).getD 0 })) := by
  unfold planFile
  rw [if_neg (by simp [hfile]), if_neg (by simp [hmd5]),
    if_neg (by simp [hfile]), if_neg (by simp [hfix]), hm]

/-- **C5** — for a matched file and a well-formed destination template,
`str.format` raises the `KeyError` modelled as `TemplateFieldError` if and
only if the template has a placeholder with no value among the matched
capture fields and the extras `filename` and `date`; and when planning of
any file raises, `build_jobs` propagates the exception — it returns no job
list at all, so no job is emitted and the transfer phase never starts. -/
theorem C5_template_field_error (fs : FileSys) (args : PlanArgs) (p : String)
    (g : List (String × String)) (ts : List TplTok)
    (hwf : ∀ t ∈ ts, tokWF t = true)
    (htpl : args.remote_dir_pattern.toList = toksStr ts)
    (hfile : fs.isFile p = true)
    (hmd5 : strEnds p ".md5" = false)
    (hfix : args.fix_md5_files = true)
    (hm : args.src_match p = some g)
    (hfn : "filename" ∉ g.map Prod.fst)
    (hdt : "date" ∉ g.map Prod.fst) :
    ((∃ n, planFile fs args p = .error (.templateField n)) ↔
      ∃ n ∈ fieldNames ts, n ∉ g.map Prod.fst ∧ n ≠ "filename" ∧ n ≠ "date") ∧
    (∀ (e : PlanError) (pre post : List String),
      planFile fs args p = .error e →
      (∀ q ∈ pre, ∃ l, planFile fs args q = .ok l) →
      build_jobs fs args (pre ++ p :: post) = .error e) := by
  refine ⟨?_, ?_⟩
  · have hdf : destPatternFields args.remote_dir_pattern = fieldNames ts := by
      unfold destPatternFields
      rw [htpl]
      exact findFieldsAux_toks ts hwf _ (le_refl _) none (by simp)
    have hlook : ∀ n, n ∈ fieldNames ts →
        (lookupStr (("filename", pathName p ++ args.add_suffix) ::
          ("date", args.remote_dir_date) ::
          g.filter (fun kv =>
            decide (kv.1 ∈ destPatternFields args.remote_dir_pattern))) n =
            none ↔
          (n ∉ g.map Prod.fst ∧ n ≠ "filename" ∧ n ≠ "date")) := by
      intro n hn
      rw [lookupStr, lookupStr]
      by_cases h1 : "filename" = n
      · subst h1
        simp
      · rw [if_neg h1]
        by_cases h2 : "date" = n
        · subst h2
          simp
        · rw [if_neg h2]
          rw [lookupStr_filter_mem (by rw [hdf]; exact hn)]
          rw [lookupStr_eq_none_iff]
          constructor
          · intro hmem
            exact ⟨hmem, fun he => h1 he.symm, fun he => h2 he.symm⟩
          · intro h
            exact h.1
    have hred := planFile_reduce hfile hmd5 hfix hm
    rcases formatAux_toks ts
        (("filename", pathName p ++ args.add_suffix) ::
          ("date", args.remote_dir_date) ::
          g.filter (fun kv =>
            decide (kv.1 ∈ destPatternFields args.remote_dir_pattern))) hwf
      with ⟨n, he, hn, hl⟩ | ⟨hall, out, ho⟩
    · have hfmt : formatStr args.remote_dir_pattern
          (("filename", pathName p ++ args.add_suffix) ::
            ("date", args.remote_dir_date) ::
            g.filter (fun kv =>
              decide (kv.1 ∈ destPatternFields args.remote_dir_pattern))) =
          .error (.missingField n) := by
        unfold formatStr
        rw [htpl, he]
        rfl
      rw [hfmt] at hred
      have hplan : planFile fs args p = .error (.templateField n) :=
        hred.trans rfl
      constructor
      · intro _
        exact ⟨n, hn, (hlook n hn).1 hl⟩
      · intro _
        exact ⟨n, hplan⟩
    · have hfmt : formatStr args.remote_dir_pattern
          (("filename", pathName p ++ args.add_suffix) ::
            ("date", args.remote_dir_date) ::
            g.filter (fun kv =>
              decide (kv.1 ∈ destPatternFields args.remote_dir_pattern))) =
          .ok ⟨out⟩ := by
        unfold formatStr
        rw [htpl, ho]
        rfl
      rw [hfmt] at hred
      have hplan := hred.trans rfl
      constructor
      · rintro ⟨n, hpe⟩
        rw [hplan] at hpe
        simp at hpe
      · rintro ⟨n, hn, hk, hnf, hnd⟩
        have hsome := hall n hn
        rw [(hlook n hn).2 ⟨hk, hnf, hnd⟩] at hsome
        simp at hsome
  · intro e pre post herr hall
    unfold build_jobs
    rw [planJobs_error herr pre hall]
    rfl

/-- Witness for C5: rendering `{library}/{filename}` for a matched file
raises `TemplateFieldError` for `library`, and planning aborts with it. -/
theorem C5_template_field_error_witness :
    (∃ n, planFile [("a.fastq.gz", 3)] c5Args "a.fastq.gz" =
      .error (.templateField n)) ∧
    build_jobs [("a.fastq.gz", 3)] c5Args ["a.fastq.gz"] =
      .error (.templateField "library") := by
  have h := C5_template_field_error [("a.fastq.gz", 3)] c5Args "a.fastq.gz"
    [("sample", "a"), ("lane", ""), ("mate", ""), ("batch", "")]
    [.field "library", .lit '/', .field "filename"]
    (by decide) (by rfl) (by rfl) (by rfl) (by rfl) (by rfl)
    (by decide) (by decide)
  refine ⟨?_, ?_⟩
  · exact h.1.mpr ⟨"library", by decide, by decide, by decide, by decide⟩
  · exact h.2 (.templateField "library") [] [] (by rfl) (by simp)

end CubiTk

